import Mathlib

/-!
Verification development for the arithmetic-task server in `main.go`
(Go, single file).  The parts of the program the claims are about are
shallowly embedded below, definition by definition, following the Go
source:

* the expression evaluator `evaluateExpression` (a two-stack
  operator-precedence evaluator over `float64`);
* the task record, the handler that creates tasks, the handler that
  serves `GET /tasks/{id}/result`, the worker-agent loop, and the
  buffered task channel.

Numbers: the Go code computes in `float64`.  Every claim that touches
arithmetic only involves additions, subtractions, multiplications and
exact divisions of small integers, on which IEEE-754 double arithmetic
is exact and agrees with rational arithmetic, so operands are embedded
as `ℚ`.

Stacks: Go keeps each stack in a slice whose last element is the top.
Here each stack is a `List` whose HEAD is the top, so the Go slice read
`operandStack[0]` (the bottom of the stack) is `List.getLast?`.

Control flow: the evaluator has three while-loops whose body is
`performOperation()`.  `performOperation` returns without doing
anything when fewer than two operands (or no operator) are available,
in which case the enclosing loop condition never changes and the Go
program loops forever; these stuck iterations are modelled as `none`.
The final statement `return operandStack[0]` panics (index out of
range) when the operand stack is empty; that is the `crash` outcome.
-/

/-- Result of running the Go function `evaluateExpression`:
`ok v` - the function returns the value `v`;
`hang` - a while-loop retries `performOperation()` forever because it
cannot pop (fewer than two operands while an operator remains);
`crash` - the final `return operandStack[0]` panics on an empty
operand stack. -/
inductive GoResult where
  | ok (v : ℚ)
  | hang
  | crash
  deriving DecidableEq

/-- The `switch op` inside `performOperation`: `a+b`, `a-b`, `a*b`,
`a/b`; for any other operator character (only `'('` can ever be there)
the Go variable `result` keeps its zero value `0`.  The operator
durations (`time.Sleep`) only delay the computation and do not affect
the produced value, so they do not appear in the value-level model. -/
def applyOp (op : Char) (a b : ℚ) : ℚ :=
  if op = '+' then a + b
  else if op = '-' then a - b
  else if op = '*' then a * b
  else if op = '/' then a / b
  else 0

/-- The closure `performOperation` of `evaluateExpression`: if fewer
than two operands or no operator are available it returns leaving the
stacks unchanged; otherwise it pops `b` (top), then `a`, pops one
operator `op`, and pushes `applyOp op a b`. -/
def performOperation : List ℚ × List Char → List ℚ × List Char
  | (b :: a :: opnds, op :: ops) => (applyOp op a b :: opnds, ops)
  | s => s

/-- One of the Go while-loops `for len(operatorStack) > 0 && p(top) {
performOperation() }`.  Each productive iteration pops one operator
(the body is exactly `performOperation`); when the loop condition
holds but fewer than two operands are available, `performOperation`
changes nothing and the Go loop spins forever, modelled as `none`. -/
def drainWhile (p : Char → Bool) : List ℚ → List Char → Option (List ℚ × List Char)
  | opnds, [] => some (opnds, [])
  | opnds, op :: ops =>
    if p op then
      match opnds with
      | b :: a :: rest => drainWhile p (applyOp op a b :: rest) ops
      | _ => none
    else some (opnds, op :: ops)

/-- Predicate of the `'+'`/`'-'` loop: the top is any of `+ - * /`. -/
def isAnyOp (c : Char) : Bool := decide (c = '+' ∨ c = '-' ∨ c = '*' ∨ c = '/')

/-- Predicate of the `'*'`/`'/'` loop: the top is `*` or `/`. -/
def isMulDiv (c : Char) : Bool := decide (c = '*' ∨ c = '/')

/-- Predicate of the `')'` loop: the top is not `'('`. -/
def notParen (c : Char) : Bool := decide (¬ c = '(')

/-- The characters the `switch char` of the scan loop handles by a
dedicated case; every other character falls to the `default` case. -/
def isSpecial (c : Char) : Bool :=
  decide (c = '(' ∨ c = ')' ∨ c = '+' ∨ c = '-' ∨ c = '*' ∨ c = '/')

/-- The `default` case of the scan loop runs
`operand, _ := strconv.ParseFloat(string(char), 64)` and pushes
`operand`, discarding the error.  On a one-character string,
`ParseFloat` succeeds exactly on the ASCII digits `'0'..'9'` (every
other single character is a syntax error) and Go returns the value `0`
together with the discarded error, so a digit pushes its value and any
other character pushes `0`. -/
def parseCharFloat (c : Char) : ℚ :=
  if c.isDigit then ((c.toNat - 48 : ℕ) : ℚ) else 0

/-- One iteration of the scan loop `for _, char := range expression`:
the `switch char` of `evaluateExpression`. -/
def scanChar (c : Char) (s : List ℚ × List Char) : Option (List ℚ × List Char) :=
  if c = '(' then some (s.1, '(' :: s.2)
  else if c = ')' then
    (drainWhile notParen s.1 s.2).map (fun s' =>
      match s'.2 with
      | '(' :: rest => (s'.1, rest)
      | other => (s'.1, other))
  else if c = '+' ∨ c = '-' then
    (drainWhile isAnyOp s.1 s.2).map (fun s' => (s'.1, c :: s'.2))
  else if c = '*' ∨ c = '/' then
    (drainWhile isMulDiv s.1 s.2).map (fun s' => (s'.1, c :: s'.2))
  else some (parseCharFloat c :: s.1, s.2)

/-- The scan loop of `evaluateExpression`, character by character. -/
def evalExprAux : List Char → List ℚ × List Char → Option (List ℚ × List Char)
  | [], s => some s
  | c :: cs, s => (scanChar c s).bind (evalExprAux cs)

/-- The epilogue of `evaluateExpression`: drain the remaining
operators (`for len(operatorStack) > 0 { performOperation() }`) and
return `operandStack[0]` - the BOTTOM of the operand stack, which
panics when the stack is empty. -/
def finishEval (s : List ℚ × List Char) : GoResult :=
  match drainWhile (fun _ => true) s.1 s.2 with
  | none => GoResult.hang
  | some s' =>
    match s'.1.getLast? with
    | none => GoResult.crash
    | some v => GoResult.ok v

/-- The Go function `evaluateExpression`: remove the spaces
(`strings.ReplaceAll(expression, " ", "")`), scan every character,
then run the epilogue `finishEval`. -/
def evaluateExpression (expression : String) : GoResult :=
  let chars := expression.toList.filter (fun c => c != ' ')
  match evalExprAux chars ([], []) with
  | none => GoResult.hang
  | some s => finishEval s

/-! ### Reference semantics for parenthesis-free expressions

`refGo acc aop cur ts` is the textbook left-to-right evaluation with
standard operator precedence of the token list
`cur ts`, in the middle of which `acc` additive value is pending under
the additive operator `aop` and `cur` is the multiplicative chain
being accumulated: a `*`/`/` token extends the current chain
immediately (tighter binding), any other (additive) token first closes
the pending additive application `applyOp aop acc cur` (left
associativity) and then opens a new chain.  It is the yardstick the
two-stack machine is compared against; it is NOT part of the Go
program. -/
def refGo (acc : ℚ) (aop : Char) (cur : ℚ) : List (Char × ℚ) → ℚ
  | [] => applyOp aop acc cur
  | (op, d) :: rest =>
    if isMulDiv op then refGo acc aop (applyOp op cur d) rest
    else refGo (applyOp aop acc cur) op d rest

/-- Reference value of `d₀ op₁ d₁ … opₙ dₙ` under standard precedence
(`*`, `/` bind tighter than `+`, `-`) and left-to-right associativity:
start with an accumulator of `0` pending under `+` (so that a lone
numeral evaluates to itself). -/
def refEval (d : ℚ) (ts : List (Char × ℚ)) : ℚ := refGo 0 '+' d ts

/-! ### Token strings

A parenthesis-free expression at the claims granularity is a leading
character `c₀` followed by (operator, operand) character pairs. -/

/-- Flatten token pairs back into the character stream the scan loop
sees. -/
def flatTokens (ts : List (Char × Char)) : List Char :=
  ts.foldr (fun p r => p.1 :: p.2 :: r) []

/-- The expression string `c₀ op₁ d₁ … opₙ dₙ`. -/
def mkExpr (c₀ : Char) (ts : List (Char × Char)) : String :=
  String.mk (c₀ :: flatTokens ts)

/-- The expression string `( c₀ op₁ d₁ … opₙ dₙ ) * d`. -/
def mkParenMulExpr (c₀ : Char) (ts : List (Char × Char)) (d : Char) : String :=
  String.mk ('(' :: c₀ :: (flatTokens ts ++ [')', '*', d]))

/-- Semantic value of the token pairs: each operand character is the
value the scan loop pushes for it. -/
def semTokens (ts : List (Char × Char)) : List (Char × ℚ) :=
  ts.map (fun p => (p.1, parseCharFloat p.2))

/-- Well-formedness of a token list: each operator character is one of
the four binary operators and each operand character is a decimal
digit. -/
def tokensOk (ts : List (Char × Char)) : Prop :=
  ∀ p ∈ ts, (p.1 = '+' ∨ p.1 = '-' ∨ p.1 = '*' ∨ p.1 = '/') ∧ p.2.isDigit = true

instance (ts : List (Char × Char)) : Decidable (tokensOk ts) := by
  unfold tokensOk
  infer_instance

/-! ### Small rewrite lemmas for the evaluator -/

theorem applyOp_add (a b : ℚ) : applyOp '+' a b = a + b := rfl

theorem applyOp_sub (a b : ℚ) : applyOp '-' a b = a - b := rfl

theorem applyOp_mul (a b : ℚ) : applyOp '*' a b = a * b := rfl

theorem applyOp_div (a b : ℚ) : applyOp '/' a b = a / b := rfl

theorem drainWhile_nil (p : Char → Bool) (opnds : List ℚ) :
    drainWhile p opnds [] = some (opnds, []) := rfl

theorem drainWhile_pop (p : Char → Bool) (op : Char) (h : p op = true)
    (b a : ℚ) (rest : List ℚ) (ops : List Char) :
    drainWhile p (b :: a :: rest) (op :: ops) =
      drainWhile p (applyOp op a b :: rest) ops := by
  simp [drainWhile, h]

theorem drainWhile_stop (p : Char → Bool) (op : Char) (h : p op = false)
    (opnds : List ℚ) (ops : List Char) :
    drainWhile p opnds (op :: ops) = some (opnds, op :: ops) := by
  simp [drainWhile, h]

theorem drainWhile_stuck_nil (p : Char → Bool) (op : Char) (h : p op = true)
    (ops : List Char) : drainWhile p [] (op :: ops) = none := by
  simp [drainWhile, h]

theorem drainWhile_stuck_one (p : Char → Bool) (op : Char) (h : p op = true)
    (x : ℚ) (ops : List Char) : drainWhile p [x] (op :: ops) = none := by
  simp [drainWhile, h]

/-- Operator-stack bases below which no scan-loop drain ever reaches:
either nothing, or a pending `'('`. -/
def okBase (O : List Char) : Prop := O = [] ∨ ∃ O₂, O = '(' :: O₂

theorem drain_base {p : Char → Bool} (hp : p '(' = false)
    {O : List Char} (hO : okBase O) (opnds : List ℚ) :
    drainWhile p opnds O = some (opnds, O) := by
  rcases hO with rfl | ⟨O₂, rfl⟩
  · exact drainWhile_nil p opnds
  · exact drainWhile_stop p '(' hp opnds O₂

theorem scanChar_open (s : List ℚ × List Char) :
    scanChar '(' s = some (s.1, '(' :: s.2) := rfl

theorem scanChar_close (opnds : List ℚ) (ops : List Char) :
    scanChar ')' (opnds, ops) =
      (drainWhile notParen opnds ops).map (fun s' =>
        match s'.2 with
        | '(' :: rest => (s'.1, rest)
        | other => (s'.1, other)) := rfl

theorem scanChar_addsub {c : Char} (h : c = '+' ∨ c = '-')
    (opnds : List ℚ) (ops : List Char) :
    scanChar c (opnds, ops) =
      (drainWhile isAnyOp opnds ops).map (fun s' => (s'.1, c :: s'.2)) := by
  rcases h with rfl | rfl <;> rfl

theorem scanChar_muldiv {c : Char} (h : c = '*' ∨ c = '/')
    (opnds : List ℚ) (ops : List Char) :
    scanChar c (opnds, ops) =
      (drainWhile isMulDiv opnds ops).map (fun s' => (s'.1, c :: s'.2)) := by
  rcases h with rfl | rfl <;> rfl

theorem isSpecial_iff (c : Char) :
    isSpecial c = true ↔
      (c = '(' ∨ c = ')' ∨ c = '+' ∨ c = '-' ∨ c = '*' ∨ c = '/') := by
  simp [isSpecial]

theorem scanChar_other {c : Char} (h : isSpecial c = false)
    (opnds : List ℚ) (ops : List Char) :
    scanChar c (opnds, ops) = some (parseCharFloat c :: opnds, ops) := by
  have h' : ¬(c = '(' ∨ c = ')' ∨ c = '+' ∨ c = '-' ∨ c = '*' ∨ c = '/') := by
    intro hc
    rw [← isSpecial_iff] at hc
    simp [h] at hc
  push_neg at h'
  obtain ⟨h1, h2, h3, h4, h5, h6⟩ := h'
  simp [scanChar, h1, h2, h3, h4, h5, h6]

theorem digit_not_special {c : Char} (h : c.isDigit = true) :
    isSpecial c = false := by
  cases hs : isSpecial c
  · rfl
  · exfalso
    rw [isSpecial_iff] at hs
    rcases hs with rfl | rfl | rfl | rfl | rfl | rfl <;> exact absurd h (by decide)

theorem isAnyOp_of_addsub {c : Char} (h : c = '+' ∨ c = '-') :
    isAnyOp c = true := by
  rcases h with rfl | rfl <;> rfl

theorem isAnyOp_of_muldiv {c : Char} (h : c = '*' ∨ c = '/') :
    isAnyOp c = true := by
  rcases h with rfl | rfl <;> rfl

theorem isMulDiv_of_muldiv {c : Char} (h : c = '*' ∨ c = '/') :
    isMulDiv c = true := by
  rcases h with rfl | rfl <;> rfl

theorem isMulDiv_of_addsub {c : Char} (h : c = '+' ∨ c = '-') :
    isMulDiv c = false := by
  rcases h with rfl | rfl <;> rfl

theorem notParen_of_addsub {c : Char} (h : c = '+' ∨ c = '-') :
    notParen c = true := by
  rcases h with rfl | rfl <;> rfl

theorem notParen_of_muldiv {c : Char} (h : c = '*' ∨ c = '/') :
    notParen c = true := by
  rcases h with rfl | rfl <;> rfl

theorem evalExprAux_cons (c : Char) (cs : List Char) (s : List ℚ × List Char) :
    evalExprAux (c :: cs) s = (scanChar c s).bind (evalExprAux cs) := rfl

theorem evalExprAux_append (l₁ l₂ : List Char) (s : List ℚ × List Char) :
    evalExprAux (l₁ ++ l₂) s = (evalExprAux l₁ s).bind (evalExprAux l₂) := by
  induction l₁ generalizing s with
  | nil => simp [evalExprAux]
  | cons c cs ih =>
    rw [List.cons_append, evalExprAux_cons, evalExprAux_cons]
    cases scanChar c s with
    | none => rfl
    | some s' => simp [ih]

/-! ### The machine-state invariant

While the machine scans a well-formed parenthesis-free expression (on
top of an inert base `S` of operands and `O` of operators, `O` empty
or headed by `'('`), its two stacks are always in one of four shapes,
each related to a reference state `(acc, aop, cur)` of `refGo`. -/

/-- The four stack shapes of the machine after reading each operand of
a parenthesis-free well-formed expression, together with the reference
state they denote.  `base`: a single operand; `addS`: an additive
operator pending below the operand being read; `mulS`: a
multiplicative operator pending; `mulAdd`: both. -/
inductive Shape (S : List ℚ) (O : List Char) :
    List ℚ → List Char → ℚ → Char → ℚ → Prop
  | base (c : ℚ) : Shape S O (c :: S) O 0 '+' c
  | addS (a c : ℚ) (aop : Char) (h : aop = '+' ∨ aop = '-') :
      Shape S O (c :: a :: S) (aop :: O) a aop c
  | mulS (c d : ℚ) (mop : Char) (h : mop = '*' ∨ mop = '/') :
      Shape S O (d :: c :: S) (mop :: O) 0 '+' (applyOp mop c d)
  | mulAdd (a c d : ℚ) (aop mop : Char)
      (ha : aop = '+' ∨ aop = '-') (hm : mop = '*' ∨ mop = '/') :
      Shape S O (d :: c :: a :: S) (mop :: aop :: O) a aop (applyOp mop c d)

/-- Scanning an additive operator from any shape drains both stacks
down to the base and leaves the single closed value
`applyOp aop acc cur` on top of `S`, with the new operator pushed. -/
theorem scanOp_addsub {S : List ℚ} {O : List Char} (hO : okBase O)
    {op : Char} (hop : op = '+' ∨ op = '-')
    {st : List ℚ} {os : List Char} {acc : ℚ} {aop : Char} {cur : ℚ}
    (hs : Shape S O st os acc aop cur) :
    scanChar op (st, os) = some (applyOp aop acc cur :: S, op :: O) := by
  rw [scanChar_addsub hop]
  cases hs with
  | base c =>
    rw [drain_base rfl hO]
    simp [applyOp]
  | addS a c aop ha =>
    rw [drainWhile_pop isAnyOp _ (isAnyOp_of_addsub ha), drain_base rfl hO]
    simp
  | mulS c d mop hm =>
    rw [drainWhile_pop isAnyOp _ (isAnyOp_of_muldiv hm), drain_base rfl hO]
    simp [applyOp]
  | mulAdd a c d aop mop ha hm =>
    rw [drainWhile_pop isAnyOp _ (isAnyOp_of_muldiv hm),
      drainWhile_pop isAnyOp _ (isAnyOp_of_addsub ha), drain_base rfl hO]
    simp

/-- Scanning a `')'` when the operator base is a pending `'('` closes
the parenthesis: both stacks drain to the base, the closed value
`applyOp aop acc cur` is pushed, and the `'('` is discarded. -/
theorem shape_closeParen {S : List ℚ} {O₂ : List Char}
    {st : List ℚ} {os : List Char} {acc : ℚ} {aop : Char} {cur : ℚ}
    (hs : Shape S ('(' :: O₂) st os acc aop cur) :
    scanChar ')' (st, os) = some (applyOp aop acc cur :: S, O₂) := by
  rw [scanChar_close]
  cases hs with
  | base c =>
    rw [drainWhile_stop notParen '(' rfl]
    simp [applyOp]
  | addS a c aop ha =>
    rw [drainWhile_pop notParen _ (notParen_of_addsub ha),
      drainWhile_stop notParen '(' rfl]
    simp
  | mulS c d mop hm =>
    rw [drainWhile_pop notParen _ (notParen_of_muldiv hm),
      drainWhile_stop notParen '(' rfl]
    simp [applyOp]
  | mulAdd a c d aop mop ha hm =>
    rw [drainWhile_pop notParen _ (notParen_of_muldiv hm),
      drainWhile_pop notParen _ (notParen_of_addsub ha),
      drainWhile_stop notParen '(' rfl]
    simp

/-- The final drain (`for len(operatorStack) > 0`) from any shape over
the empty base reduces the operand stack to the single closed value
`applyOp aop acc cur`. -/
theorem shape_drainAll {st : List ℚ} {os : List Char} {acc : ℚ}
    {aop : Char} {cur : ℚ} (hs : Shape [] [] st os acc aop cur) :
    drainWhile (fun _ => true) st os = some ([applyOp aop acc cur], []) := by
  cases hs with
  | base c =>
    rw [drainWhile_nil]
    simp [applyOp]
  | addS a c aop ha =>
    rw [drainWhile_pop _ _ rfl, drainWhile_nil]
  | mulS c d mop hm =>
    rw [drainWhile_pop _ _ rfl, drainWhile_nil]
    simp [applyOp]
  | mulAdd a c d aop mop ha hm =>
    rw [drainWhile_pop _ _ rfl, drainWhile_pop _ _ rfl, drainWhile_nil]

/-- One (operator, operand) token step of the machine, from any shape:
the machine stays in shape and its reference state advances exactly as
`refGo` does. -/
theorem shape_step {S : List ℚ} {O : List Char} (hO : okBase O)
    {op dch : Char} (hop : op = '+' ∨ op = '-' ∨ op = '*' ∨ op = '/')
    (hd : isSpecial dch = false)
    {st : List ℚ} {os : List Char} {acc : ℚ} {aop : Char} {cur : ℚ}
    (hs : Shape S O st os acc aop cur) :
    ∃ st' os' acc' aop' cur',
      (scanChar op (st, os)).bind (scanChar dch) = some (st', os') ∧
      Shape S O st' os' acc' aop' cur' ∧
      ∀ ts, refGo acc aop cur ((op, parseCharFloat dch) :: ts) =
        refGo acc' aop' cur' ts := by
  have hcase : (op = '+' ∨ op = '-') ∨ (op = '*' ∨ op = '/') := by tauto
  rcases hcase with hA | hM
  · -- additive operator: close everything, then push the operand
    refine ⟨parseCharFloat dch :: applyOp aop acc cur :: S, op :: O,
      applyOp aop acc cur, op, parseCharFloat dch, ?_, ?_, ?_⟩
    · rw [scanOp_addsub hO hA hs]
      rw [Option.some_bind, scanChar_other hd]
    · exact Shape.addS _ _ _ hA
    · intro ts
      rw [refGo]
      rw [if_neg (by simp [isMulDiv_of_addsub hA])]
  · -- multiplicative operator: only the multiplicative top is closed
    cases hs with
    | base c =>
      refine ⟨parseCharFloat dch :: cur :: S, op :: O, 0, '+',
        applyOp op cur (parseCharFloat dch), ?_, ?_, ?_⟩
      · rw [scanChar_muldiv hM, drain_base rfl hO]
        simp [scanChar_other hd]
      · exact Shape.mulS _ _ _ hM
      · intro ts
        rw [refGo]
        rw [if_pos (by simp [isMulDiv_of_muldiv hM])]
    | addS a c aop ha =>
      refine ⟨parseCharFloat dch :: cur :: acc :: S, op :: aop :: O, acc, aop,
        applyOp op cur (parseCharFloat dch), ?_, ?_, ?_⟩
      · rw [scanChar_muldiv hM, drainWhile_stop isMulDiv _ (isMulDiv_of_addsub ha)]
        simp [scanChar_other hd]
      · exact Shape.mulAdd _ _ _ _ _ ha hM
      · intro ts
        rw [refGo]
        rw [if_pos (by simp [isMulDiv_of_muldiv hM])]
    | mulS c d mop hm =>
      refine ⟨parseCharFloat dch :: applyOp mop c d :: S, op :: O, 0, '+',
        applyOp op (applyOp mop c d) (parseCharFloat dch), ?_, ?_, ?_⟩
      · rw [scanChar_muldiv hM, drainWhile_pop isMulDiv _ (isMulDiv_of_muldiv hm),
          drain_base rfl hO]
        simp [scanChar_other hd]
      · exact Shape.mulS _ _ _ hM
      · intro ts
        rw [refGo]
        rw [if_pos (by simp [isMulDiv_of_muldiv hM])]
    | mulAdd a c d aop mop ha hm =>
      refine ⟨parseCharFloat dch :: applyOp mop c d :: acc :: S, op :: aop :: O,
        acc, aop, applyOp op (applyOp mop c d) (parseCharFloat dch), ?_, ?_, ?_⟩
      · rw [scanChar_muldiv hM, drainWhile_pop isMulDiv _ (isMulDiv_of_muldiv hm),
          drainWhile_stop isMulDiv _ (isMulDiv_of_addsub ha)]
        simp [scanChar_other hd]
      · exact Shape.mulAdd _ _ _ _ _ ha hM
      · intro ts
        rw [refGo]
        rw [if_pos (by simp [isMulDiv_of_muldiv hM])]

/-- Running the scan loop over a whole well-formed token list keeps
the machine in shape and tracks `refGo` exactly. -/
theorem runTokens_shape (ts : List (Char × Char)) (hts : tokensOk ts)
    {S : List ℚ} {O : List Char} (hO : okBase O)
    {st : List ℚ} {os : List Char} {acc : ℚ} {aop : Char} {cur : ℚ}
    (hs : Shape S O st os acc aop cur) :
    ∃ st' os' acc' aop' cur',
      evalExprAux (flatTokens ts) (st, os) = some (st', os') ∧
      Shape S O st' os' acc' aop' cur' ∧
      refGo acc aop cur (semTokens ts) = applyOp aop' acc' cur' := by
  induction ts generalizing st os acc aop cur with
  | nil =>
    exact ⟨st, os, acc, aop, cur, rfl, hs, rfl⟩
  | cons p rest ih =>
    have hp := hts p (List.mem_cons_self p rest)
    have hrest : tokensOk rest := fun q hq => hts q (List.mem_cons_of_mem p hq)
    obtain ⟨st₁, os₁, acc₁, aop₁, cur₁, hrun₁, hs₁, href₁⟩ :=
      shape_step hO hp.1 (digit_not_special hp.2) hs
    obtain ⟨st', os', acc', aop', cur', hrun', hs', href'⟩ := ih hrest hs₁
    refine ⟨st', os', acc', aop', cur', ?_, hs', ?_⟩
    · have hflat : flatTokens (p :: rest) = p.1 :: p.2 :: flatTokens rest := rfl
      rw [hflat, evalExprAux_cons]
      have hassoc : (scanChar p.1 (st, os)).bind
          (fun s => (scanChar p.2 s).bind (evalExprAux (flatTokens rest))) =
          ((scanChar p.1 (st, os)).bind (scanChar p.2)).bind
            (evalExprAux (flatTokens rest)) := by
        cases scanChar p.1 (st, os) <;> rfl
      calc (scanChar p.1 (st, os)).bind (evalExprAux (p.2 :: flatTokens rest))
          = (scanChar p.1 (st, os)).bind
              (fun s => (scanChar p.2 s).bind (evalExprAux (flatTokens rest))) := rfl
        _ = ((scanChar p.1 (st, os)).bind (scanChar p.2)).bind
              (evalExprAux (flatTokens rest)) := hassoc
        _ = some (st', os') := by rw [hrun₁, Option.some_bind, hrun']
    · have : semTokens (p :: rest) = (p.1, parseCharFloat p.2) :: semTokens rest := rfl
      rw [this, href₁, href']

/-! ### From token lists to the full evaluator -/

theorem flatTokens_nil : flatTokens [] = [] := rfl

theorem flatTokens_cons (p : Char × Char) (ts : List (Char × Char)) :
    flatTokens (p :: ts) = p.1 :: p.2 :: flatTokens ts := rfl

theorem flatTokens_mem {c : Char} {ts : List (Char × Char)}
    (h : c ∈ flatTokens ts) : ∃ p ∈ ts, c = p.1 ∨ c = p.2 := by
  induction ts with
  | nil => simp [flatTokens_nil] at h
  | cons p rest ih =>
    rw [flatTokens_cons] at h
    rcases List.mem_cons.mp h with h1 | h2
    · exact ⟨p, List.mem_cons_self p rest, Or.inl h1⟩
    · rcases List.mem_cons.mp h2 with h3 | h4
      · exact ⟨p, List.mem_cons_self p rest, Or.inr h3⟩
      · obtain ⟨q, hq, hcq⟩ := ih h4
        exact ⟨q, List.mem_cons_of_mem p hq, hcq⟩

theorem digit_ne_space {c : Char} (h : c.isDigit = true) : (c != ' ') = true := by
  simp only [bne_iff_ne, ne_eq]
  intro hc
  subst hc
  exact absurd h (by decide)

theorem op_ne_space {c : Char} (h : c = '+' ∨ c = '-' ∨ c = '*' ∨ c = '/') :
    (c != ' ') = true := by
  rcases h with rfl | rfl | rfl | rfl <;> rfl

/-- A well-formed token string contains no spaces, so the space
removal of `evaluateExpression` leaves it unchanged. -/
theorem mkExpr_chars (c₀ : Char) (ts : List (Char × Char))
    (h₀ : c₀.isDigit = true) (hts : tokensOk ts) :
    (mkExpr c₀ ts).toList.filter (fun c => c != ' ') = c₀ :: flatTokens ts := by
  have hdata : (mkExpr c₀ ts).toList = c₀ :: flatTokens ts := rfl
  rw [hdata, List.filter_eq_self]
  intro a ha
  rcases List.mem_cons.mp ha with rfl | ha
  · exact digit_ne_space h₀
  · obtain ⟨p, hp, hap⟩ := flatTokens_mem ha
    rcases hap with rfl | rfl
    · exact op_ne_space (hts p hp).1
    · exact digit_ne_space (hts p hp).2

/-- Assembling a run of `evaluateExpression` from a successful scan
and a successful final drain. -/
theorem evaluateExpression_eval (e : String) (st : List ℚ) (os : List Char) (v : ℚ)
    (h1 : evalExprAux (e.toList.filter (fun c => c != ' ')) ([], []) = some (st, os))
    (h2 : drainWhile (fun _ => true) st os = some ([v], [])) :
    evaluateExpression e = GoResult.ok v := by
  simp only [evaluateExpression]
  rw [h1]
  show finishEval (st, os) = GoResult.ok v
  unfold finishEval
  rw [h2]
  rfl

/-- MAIN equivalence for parenthesis-free expressions: on every
well-formed single-digit-token expression without parentheses the Go
evaluator terminates and returns exactly the reference value computed
with standard operator precedence and left-to-right associativity. -/
theorem eval_noparen (c₀ : Char) (ts : List (Char × Char))
    (h₀ : c₀.isDigit = true) (hts : tokensOk ts) :
    evaluateExpression (mkExpr c₀ ts) =
      GoResult.ok (refEval (parseCharFloat c₀) (semTokens ts)) := by
  obtain ⟨st', os', acc', aop', cur', hrun, hs', href⟩ :=
    runTokens_shape ts hts (Or.inl rfl)
      (Shape.base (parseCharFloat c₀) : Shape [] [] _ _ _ _ _)
  refine evaluateExpression_eval _ st' os' _ ?_ ?_
  · rw [mkExpr_chars c₀ ts h₀ hts, evalExprAux_cons,
      scanChar_other (digit_not_special h₀), Option.some_bind]
    exact hrun
  · rw [shape_drainAll hs', ← href]
    rfl

/-- The token string of `( c₀ op₁ d₁ … opₙ dₙ ) * d` contains no
spaces either. -/
theorem mkParenMulExpr_chars (c₀ : Char) (ts : List (Char × Char)) (d : Char)
    (h₀ : c₀.isDigit = true) (hts : tokensOk ts) (hd : d.isDigit = true) :
    (mkParenMulExpr c₀ ts d).toList.filter (fun c => c != ' ') =
      '(' :: c₀ :: (flatTokens ts ++ [')', '*', d]) := by
  have hdata : (mkParenMulExpr c₀ ts d).toList =
      '(' :: c₀ :: (flatTokens ts ++ [')', '*', d]) := rfl
  rw [hdata, List.filter_eq_self]
  intro a ha
  rcases List.mem_cons.mp ha with rfl | ha
  · rfl
  rcases List.mem_cons.mp ha with rfl | ha
  · exact digit_ne_space h₀
  rcases List.mem_append.mp ha with ha | ha
  · obtain ⟨p, hp, hap⟩ := flatTokens_mem ha
    rcases hap with rfl | rfl
    · exact op_ne_space (hts p hp).1
    · exact digit_ne_space (hts p hp).2
  · rcases List.mem_cons.mp ha with rfl | ha
    · rfl
    rcases List.mem_cons.mp ha with rfl | ha
    · rfl
    rcases List.mem_cons.mp ha with rfl | ha
    · exact digit_ne_space hd
    · exact absurd ha (List.not_mem_nil a)

/-- Equivalence for `( E ) * d` with `E` parenthesis-free and
well-formed: the machine evaluates the parenthesized subexpression
first and then multiplies its value by the operand `d`, even though
`*` binds tighter than the operators inside the parentheses. -/
theorem eval_parenMul (c₀ : Char) (ts : List (Char × Char)) (d : Char)
    (h₀ : c₀.isDigit = true) (hts : tokensOk ts) (hd : d.isDigit = true) :
    evaluateExpression (mkParenMulExpr c₀ ts d) =
      GoResult.ok (refEval (parseCharFloat c₀) (semTokens ts) * parseCharFloat d) := by
  obtain ⟨st', os', acc', aop', cur', hrun, hs', href⟩ :=
    runTokens_shape ts hts (Or.inr ⟨[], rfl⟩)
      (Shape.base (parseCharFloat c₀) : Shape [] ['('] _ _ _ _ _)
  refine evaluateExpression_eval _
    [parseCharFloat d, applyOp aop' acc' cur'] ['*'] _ ?_ ?_
  · rw [mkParenMulExpr_chars c₀ ts d h₀ hts hd]
    rw [evalExprAux_cons, scanChar_open, Option.some_bind]
    rw [evalExprAux_cons, scanChar_other (digit_not_special h₀), Option.some_bind]
    rw [evalExprAux_append, hrun, Option.some_bind]
    rw [evalExprAux_cons, shape_closeParen hs', Option.some_bind]
    rw [evalExprAux_cons, scanChar_muldiv (Or.inl rfl), drainWhile_nil]
    simp only [Option.map_some', Option.some_bind]
    rw [evalExprAux_cons, scanChar_other (digit_not_special hd), Option.some_bind]
    rfl
  · rw [drainWhile_pop _ _ rfl, drainWhile_nil, applyOp_mul]
    have : refEval (parseCharFloat c₀) (semTokens ts) = applyOp aop' acc' cur' := href
    rw [this]

/-! ### Uniform-precedence chains fold left to right -/

theorem refGo_allMul (l : List (Char × ℚ)) (h : ∀ p ∈ l, p.1 = '*' ∨ p.1 = '/') :
    ∀ acc aop cur, refGo acc aop cur l =
      applyOp aop acc (l.foldl (fun x p => applyOp p.1 x p.2) cur) := by
  induction l with
  | nil => intro acc aop cur; rfl
  | cons p rest ih =>
    intro acc aop cur
    obtain ⟨op, e⟩ := p
    have hp := h (op, e) (List.mem_cons_self _ _)
    have hrest : ∀ q ∈ rest, q.1 = '*' ∨ q.1 = '/' :=
      fun q hq => h q (List.mem_cons_of_mem _ hq)
    rw [refGo, if_pos (by simp [isMulDiv_of_muldiv hp]), ih hrest, List.foldl_cons]

theorem refGo_allAdd (l : List (Char × ℚ)) (h : ∀ p ∈ l, p.1 = '+' ∨ p.1 = '-') :
    ∀ acc aop cur, refGo acc aop cur l =
      l.foldl (fun x p => applyOp p.1 x p.2) (applyOp aop acc cur) := by
  induction l with
  | nil => intro acc aop cur; rfl
  | cons p rest ih =>
    intro acc aop cur
    obtain ⟨op, e⟩ := p
    have hp := h (op, e) (List.mem_cons_self _ _)
    have hrest : ∀ q ∈ rest, q.1 = '+' ∨ q.1 = '-' :=
      fun q hq => h q (List.mem_cons_of_mem _ hq)
    rw [refGo, if_neg (by simp [isMulDiv_of_addsub hp]), ih hrest, List.foldl_cons]

theorem refEval_allMul (d : ℚ) (l : List (Char × ℚ))
    (h : ∀ p ∈ l, p.1 = '*' ∨ p.1 = '/') :
    refEval d l = l.foldl (fun x p => applyOp p.1 x p.2) d := by
  unfold refEval
  rw [refGo_allMul l h, applyOp_add, zero_add]

theorem refEval_allAdd (d : ℚ) (l : List (Char × ℚ))
    (h : ∀ p ∈ l, p.1 = '+' ∨ p.1 = '-') :
    refEval d l = l.foldl (fun x p => applyOp p.1 x p.2) d := by
  unfold refEval
  rw [refGo_allAdd l h, applyOp_add, zero_add]

/-! ### Task records and the task registry

The Go struct `Task` (the Lean name `GoTask` avoids the core
library type of the same name), without its embedded `sync.Mutex` (a
synchronization primitive with no value content) and with `float64`
embedded as `ℚ` as above.  All status values in this program are the
three literal strings written by the handlers and agents: `"queued"`,
`"calculated"`, `"completed"`. -/
structure GoTask where
  ID : ℕ
  Expression : String
  Status : String
  Result : ℚ
  AgentID : ℕ
  deriving DecidableEq

/-- The task that `addTaskHandler` appends: the decoded body supplies
the expression, then the handler overwrites `ID` with `nextTaskID` and
`Status` with `"queued"`; `Result`/`AgentID` keep their zero values. -/
def newTask (id : ℕ) (expr : String) : GoTask :=
  { ID := id, Expression := expr, Status := "queued", Result := 0, AgentID := 0 }

/-- The two global variables of the program that make up the task
registry: the slice `tasks` and the counter `nextTaskID` (initially
`1`). -/
structure Registry where
  tasks : List GoTask
  nextTaskID : ℕ

/-- Initial state of the globals: `tasks` empty, `nextTaskID = 1`. -/
def registryInit : Registry := { tasks := [], nextTaskID := 1 }

/-- The task-creation portion of `addTaskHandler` (run atomically,
i.e. the sequential semantics): `task.ID = nextTaskID; nextTaskID++;
task.Status = "queued"; tasks = append(tasks, &task)`.  Returns the
new registry and the identifier reported to the client. -/
def addTask (r : Registry) (expr : String) : Registry × ℕ :=
  ({ tasks := r.tasks ++ [newTask r.nextTaskID expr],
     nextTaskID := r.nextTaskID + 1 }, r.nextTaskID)

/-- A sequence of task submissions applied to a registry. -/
def applyCreates (r : Registry) : List String → Registry
  | [] => r
  | e :: es => applyCreates (addTask r e).1 es

/-- The first status write of the agent loop in `startAgents` when it
claims a task from the channel: `task.Status = "calculated"`. -/
def claimTask (t : GoTask) : GoTask := { t with Status := "calculated" }

/-- The final writes of the agent loop once `evaluateExpression` has
returned `v`: `task.Result = v; task.Status = "completed"`. -/
def completeTask (t : GoTask) (v : ℚ) : GoTask :=
  { t with Status := "completed", Result := v }

/-- Position of a status string along the task lifecycle. -/
def statusRank (s : String) : ℕ :=
  if s = "queued" then 0 else if s = "calculated" then 1 else 2

/-- Every status transition the program ever performs on a task, as
(before, after) pairs: the agent moves a claimed (queued) task to
`"calculated"` and a calculated task to `"completed"`; no other code
writes `Status` after creation. -/
def statusWrites : List (String × String) :=
  [("queued", "calculated"), ("calculated", "completed")]

/-! ### The `GET /tasks/{id}/result` handler -/

/-- The digit part of `strconv.Atoi`: at least one decimal digit and
nothing else; any other string is a syntax error (`none`). -/
def digitsVal (l : List Char) : Option ℕ :=
  if l = [] then none
  else l.foldl
    (fun acc c => acc.bind
      (fun a => if c.isDigit then some (a * 10 + (c.toNat - 48)) else none))
    (some 0)

/-- Largest value of the 64-bit Go `int`. -/
def int64Max : ℤ := 9223372036854775807

/-- Smallest value of the 64-bit Go `int`. -/
def int64Min : ℤ := -9223372036854775808

/-- `strconv.Atoi` on the id path segment: an optional sign followed
by at least one decimal digit.  A malformed string is a syntax error
and a numeral whose value falls outside the 64-bit `int` range is a
range error (`ErrRange`); in both cases `Atoi` returns a non-nil
error, which the handler turns into a 400 response, so both are
`none` here. -/
def goAtoi (s : String) : Option ℤ :=
  match s.toList with
  | '+' :: rest => (digitsVal rest).bind
      (fun n => if (n : ℤ) ≤ int64Max then some (n : ℤ) else none)
  | '-' :: rest => (digitsVal rest).bind
      (fun n => if int64Min ≤ -(n : ℤ) then some (-(n : ℤ)) else none)
  | l => (digitsVal l).bind
      (fun n => if (n : ℤ) ≤ int64Max then some (n : ℤ) else none)

/-- The possible HTTP responses of `getTaskResultHandler`, by status
code and body content. -/
inductive HttpResp where
  | badRequest (msg : String)
  | notFound (msg : String)
  | accepted (status : String)
  | okResult (result : ℚ)
  deriving DecidableEq

/-- Identifier lookup as the handler performs it: the bounds check
`taskID < 1 || taskID > len(tasks)` and then the index `tasks[taskID-1]`. -/
def lookupTask (tasks : List GoTask) (taskID : ℤ) : Option GoTask :=
  if taskID < 1 ∨ (tasks.length : ℤ) < taskID then none
  else tasks.get? (taskID - 1).toNat

/-- The Go handler `getTaskResultHandler`, given the `{id}` path
segment: `strconv.Atoi` error - 400; id out of range - 404; status not
`"completed"` - 202 with the waiting message; otherwise 200 with the
task result.  The Go code indexes `tasks[taskID-1]` directly, which
the range check has already bounded, so the `getD` default below is
never taken (proved in the C4 theorem via `lookupTask`). -/
def getTaskResultHandler (tasks : List GoTask) (idSegment : String) : HttpResp :=
  match goAtoi idSegment with
  | none => HttpResp.badRequest "Invalid task ID"
  | some taskID =>
    if taskID < 1 ∨ (tasks.length : ℤ) < taskID then
      HttpResp.notFound "Task not found"
    else
      let task := (tasks.get? (taskID - 1).toNat).getD (newTask 0 "")
      if ¬ task.Status = "completed" then
        HttpResp.accepted "Task is not completed yet"
      else HttpResp.okResult task.Result

/-! ### The dispatch channel

Modelled from the semantics of the Go buffered channel created by
`make(chan *GoTask, 100)` (the channel implementation itself is the Go
runtime, not repository code): a bounded FIFO buffer; a send appends
to the tail and blocks while the buffer holds `cap` elements; a
receive takes the head and blocks while the buffer is empty.
`none` models "the caller blocks". -/
structure GoChan where
  buf : List GoTask
  cap : ℕ

/-- `taskChannel <- task`: succeeds (appending at the tail) iff the
buffer is below capacity; otherwise the sender blocks (`none`). -/
def chanSend (c : GoChan) (t : GoTask) : Option GoChan :=
  if c.buf.length < c.cap then some { c with buf := c.buf ++ [t] } else none

/-- `task := <-taskChannel`: takes the oldest element; blocks
(`none`) when the buffer is empty. -/
def chanRecv (c : GoChan) : Option (GoTask × GoChan) :=
  match c.buf with
  | [] => none
  | t :: rest => some (t, { c with buf := rest })

/-- `taskChannel = make(chan *GoTask, 100)`: empty buffer, capacity 100. -/
def taskChannelInit : GoChan := { buf := [], cap := 100 }

/-- A sequence of sends; `none` as soon as one of them would block. -/
def sendList (c : GoChan) : List GoTask → Option GoChan
  | [] => some c
  | t :: ts =>
    match chanSend c t with
    | none => none
    | some c' => sendList c' ts

/-! ### The unsynchronized identifier assignment, instruction by
instruction

`addTaskHandler` runs `task.ID = nextTaskID` and then `nextTaskID++`
with no lock, while `net/http` serves each request on its own
goroutine.  The two statements of two concurrent handler invocations
`A` and `B` are modelled as individual steps on the shared counter so
that their interleavings can be examined. -/
structure RaceState where
  nextTaskID : ℕ
  pcA : ℕ
  idA : ℕ
  pcB : ℕ
  idB : ℕ

/-- Both handler goroutines are at their first statement; the global
counter starts at `1`. -/
def raceInit : RaceState :=
  { nextTaskID := 1, pcA := 0, idA := 0, pcB := 0, idB := 0 }

/-- One step of handler invocation `A`: first `task.ID = nextTaskID`,
then `nextTaskID++`. -/
def stepA (s : RaceState) : RaceState :=
  if s.pcA = 0 then { s with idA := s.nextTaskID, pcA := 1 }
  else if s.pcA = 1 then { s with nextTaskID := s.nextTaskID + 1, pcA := 2 }
  else s

/-- One step of handler invocation `B`. -/
def stepB (s : RaceState) : RaceState :=
  if s.pcB = 0 then { s with idB := s.nextTaskID, pcB := 1 }
  else if s.pcB = 1 then { s with nextTaskID := s.nextTaskID + 1, pcB := 2 }
  else s

/-- Run a schedule: `true` steps goroutine `A`, `false` steps `B`. -/
def runSchedule (sched : List Bool) (s : RaceState) : RaceState :=
  sched.foldl (fun st g => if g then stepA st else stepB st) s

/-! ### Registry invariant: identifier = 1-based position -/

/-- The registry invariant: the counter is one past the number of
tasks, and the task stored at position `k` carries identifier `k+1`. -/
def idsMatch (r : Registry) : Prop :=
  r.nextTaskID = r.tasks.length + 1 ∧
  ∀ (k : ℕ) (h : k < r.tasks.length), (r.tasks[k]).ID = k + 1

theorem idsMatch_init : idsMatch registryInit := by
  constructor
  · rfl
  · intro k h
    exact absurd h (by simp [registryInit])

theorem idsMatch_addTask (r : Registry) (e : String) (h : idsMatch r) :
    idsMatch (addTask r e).1 := by
  obtain ⟨h1, h2⟩ := h
  constructor
  · simp [addTask, h1]
  · intro k hk
    have hk' : k < r.tasks.length + 1 := by simpa [addTask] using hk
    by_cases hlt : k < r.tasks.length
    · have hg : ((addTask r e).1.tasks)[k] = (r.tasks)[k] := by
        simp only [addTask]
        exact List.getElem_append_left hlt
      rw [hg]
      exact h2 k hlt
    · have hke : k = r.tasks.length := by omega
      subst hke
      have hg : ((addTask r e).1.tasks)[r.tasks.length] = newTask r.nextTaskID e := by
        simp only [addTask]
        exact List.getElem_concat_length r.tasks _ _ rfl _
      rw [hg]
      simpa [newTask] using h1

theorem idsMatch_applyCreates (es : List String) :
    ∀ r : Registry, idsMatch r → idsMatch (applyCreates r es) := by
  induction es with
  | nil => intro r h; exact h
  | cons e rest ih =>
    intro r h
    exact ih (addTask r e).1 (idsMatch_addTask r e h)

/-- In-range lookup returns the stored element. -/
theorem lookupTask_inRange (tasks : List GoTask) (i : ℤ)
    (h1 : 1 ≤ i) (h2 : i ≤ (tasks.length : ℤ)) :
    ∃ hk : (i - 1).toNat < tasks.length,
      lookupTask tasks i = some (tasks[(i - 1).toNat]) := by
  have hk : (i - 1).toNat < tasks.length := by omega
  refine ⟨hk, ?_⟩
  rw [lookupTask, if_neg (by omega)]
  exact List.get?_eq_get hk

/-- Successful lookup pins down the handler result. -/
theorem handler_of_lookup (tasks : List GoTask) (seg : String) (i : ℤ) (t : GoTask)
    (hatoi : goAtoi seg = some i) (hlook : lookupTask tasks i = some t) :
    getTaskResultHandler tasks seg =
      if ¬ t.Status = "completed" then HttpResp.accepted "Task is not completed yet"
      else HttpResp.okResult t.Result := by
  have hcond : ¬(i < 1 ∨ (tasks.length : ℤ) < i) := by
    intro hc
    rw [lookupTask, if_pos hc] at hlook
    exact Option.noConfusion hlook
  have hget : tasks.get? (i - 1).toNat = some t := by
    rw [lookupTask, if_neg hcond] at hlook
    exact hlook
  simp only [getTaskResultHandler, hatoi, if_neg hcond, hget, Option.getD_some]

/-! ### Channel sends -/

theorem sendList_ok (l : List GoTask) :
    ∀ c : GoChan, c.buf.length + l.length ≤ c.cap →
      ∃ c', sendList c l = some c' ∧ c'.buf = c.buf ++ l ∧ c'.cap = c.cap := by
  induction l with
  | nil => intro c h; exact ⟨c, rfl, by simp, rfl⟩
  | cons t ts ih =>
    intro c h
    have hlen : c.buf.length < c.cap := by
      simp only [List.length_cons] at h
      omega
    have hsend : chanSend c t = some { c with buf := c.buf ++ [t] } := by
      rw [chanSend, if_pos hlen]
    obtain ⟨c', hrun, hbuf, hcap⟩ := ih { c with buf := c.buf ++ [t] } (by
      simp only [List.length_append, List.length_cons, List.length_nil] at h ⊢
      omega)
    refine ⟨c', ?_, ?_, hcap⟩
    · rw [sendList, hsend]
      exact hrun
    · rw [hbuf]
      simp

/-! ### The claims -/

/-- Claim C1, behavior of the code at the claimed inputs: the Go
evaluator cannot fail with a MalformedExpression error (its type has
no error channel) and the worker has no Failed status.  On the
malformed input `"2+"` (trailing operator, an empty-stack pop is
attempted) the evaluator loops forever; on the empty expression it
panics; on `"23"` (two leftover operands) it silently returns the
bottom operand `2` and the worker records `"completed"`, never a
Failed status.  A single numeral alone does evaluate to itself. -/
theorem c1_no_malformed_error :
    evaluateExpression "2+" = GoResult.hang ∧
    evaluateExpression "" = GoResult.crash ∧
    evaluateExpression "23" = GoResult.ok 2 ∧
    (completeTask (claimTask (newTask 1 "23")) 2).Status = "completed" ∧
    evaluateExpression "7" = GoResult.ok 7 := by
  refine ⟨by decide, by decide, rfl, rfl, rfl⟩

/-- Claim C2: on every well-formed single-digit-token expression
without parentheses the evaluator returns the reference value computed
with standard operator precedence (`*`, `/` tighter than `+`, `-`);
in particular `"2+3*4"` evaluates to `14`, not `20`. -/
theorem c2_precedence :
    (∀ (c₀ : Char) (ts : List (Char × Char)), c₀.isDigit = true → tokensOk ts →
      evaluateExpression (mkExpr c₀ ts) =
        GoResult.ok (refEval (parseCharFloat c₀) (semTokens ts))) ∧
    evaluateExpression "2+3*4" = GoResult.ok 14 ∧
    evaluateExpression "2+3*4" ≠ GoResult.ok 20 := by
  refine ⟨eval_noparen, ?_, ?_⟩
  · have h : evaluateExpression "2+3*4" = GoResult.ok (2 + 3 * 4) := rfl
    rw [h]
    norm_num
  · have h : evaluateExpression "2+3*4" = GoResult.ok (2 + 3 * 4) := rfl
    rw [h]
    simp only [ne_eq, GoResult.ok.injEq]
    norm_num

theorem c2_precedence_witness :
    ('2' : Char).isDigit = true ∧ tokensOk [('+', '3'), ('*', '4')] ∧
    evaluateExpression (mkExpr '2' [('+', '3'), ('*', '4')]) =
      GoResult.ok (refEval (parseCharFloat '2') (semTokens [('+', '3'), ('*', '4')])) :=
  ⟨by decide, by decide,
    c2_precedence.1 '2' [('+', '3'), ('*', '4')] (by decide) (by decide)⟩

/-- Claim C3: a task is created with status `"queued"`, the worker
sets `"calculated"` when it claims it and `"completed"` when the
result is written; along this lifecycle the status rank strictly
increases at every write the program performs, so a status never
reverts to an earlier state. -/
theorem c3_status_monotone (id : ℕ) (expr : String) (v : ℚ) :
    (newTask id expr).Status = "queued" ∧
    (claimTask (newTask id expr)).Status = "calculated" ∧
    (completeTask (claimTask (newTask id expr)) v).Status = "completed" ∧
    List.Chain' (fun a b => statusRank a < statusRank b)
      [(newTask id expr).Status, (claimTask (newTask id expr)).Status,
        (completeTask (claimTask (newTask id expr)) v).Status] ∧
    ∀ p ∈ statusWrites, statusRank p.1 < statusRank p.2 := by
  refine ⟨rfl, rfl, rfl, ?_, by decide⟩
  show List.Chain' (fun a b => statusRank a < statusRank b)
    ["queued", "calculated", "completed"]
  refine List.chain'_cons.mpr ⟨by decide, ?_⟩
  refine List.chain'_cons.mpr ⟨by decide, ?_⟩
  exact List.chain'_singleton _

theorem c3_status_monotone_witness :
    ("queued", "calculated") ∈ statusWrites ∧
    statusRank "queued" < statusRank "calculated" :=
  ⟨by decide, (c3_status_monotone 1 "2+2" 4).2.2.2.2 ("queued", "calculated") (by decide)⟩

/-- Claim C4: `GET /tasks/{id}/result` answers 400 on a non-integer id
segment, 404 on an out-of-range id, 202 with body status
`"Task is not completed yet"` (and no result value) whenever the
stored status is not `"completed"`, and 200 with exactly the stored
result once it is. -/
theorem c4_result_endpoint (tasks : List GoTask) (seg : String) :
    (goAtoi seg = none →
      getTaskResultHandler tasks seg = HttpResp.badRequest "Invalid task ID") ∧
    (∀ i : ℤ, goAtoi seg = some i → (i < 1 ∨ (tasks.length : ℤ) < i) →
      getTaskResultHandler tasks seg = HttpResp.notFound "Task not found") ∧
    (∀ (i : ℤ) (t : GoTask), goAtoi seg = some i → lookupTask tasks i = some t →
      ¬ t.Status = "completed" →
      getTaskResultHandler tasks seg = HttpResp.accepted "Task is not completed yet") ∧
    (∀ (i : ℤ) (t : GoTask), goAtoi seg = some i → lookupTask tasks i = some t →
      t.Status = "completed" →
      getTaskResultHandler tasks seg = HttpResp.okResult t.Result) := by
  refine ⟨?_, ?_, ?_, ?_⟩
  · intro h
    simp [getTaskResultHandler, h]
  · intro i hi hrange
    simp only [getTaskResultHandler, hi]
    rw [if_pos hrange]
  · intro i t hi hlook hst
    rw [handler_of_lookup tasks seg i t hi hlook, if_pos hst]
  · intro i t hi hlook hst
    rw [handler_of_lookup tasks seg i t hi hlook, if_neg (by simp [hst])]

theorem c4_result_endpoint_witness :
    goAtoi "abc" = none ∧
    getTaskResultHandler [newTask 1 "1+1"] "abc" = HttpResp.badRequest "Invalid task ID" ∧
    goAtoi "9223372036854775808" = none ∧
    getTaskResultHandler [newTask 1 "1+1"] "9223372036854775808" =
      HttpResp.badRequest "Invalid task ID" ∧
    getTaskResultHandler [newTask 1 "1+1"] "5" = HttpResp.notFound "Task not found" ∧
    getTaskResultHandler [newTask 1 "1+1"] "1" =
      HttpResp.accepted "Task is not completed yet" ∧
    getTaskResultHandler [completeTask (claimTask (newTask 1 "8/4/2")) 1] "1" =
      HttpResp.okResult (completeTask (claimTask (newTask 1 "8/4/2")) 1).Result :=
  ⟨by decide,
    (c4_result_endpoint [newTask 1 "1+1"] "abc").1 (by decide),
    by decide,
    (c4_result_endpoint [newTask 1 "1+1"] "9223372036854775808").1 (by decide),
    (c4_result_endpoint [newTask 1 "1+1"] "5").2.1 5 rfl (by decide),
    (c4_result_endpoint [newTask 1 "1+1"] "1").2.2.1 1 (newTask 1 "1+1") rfl rfl
      (by decide),
    (c4_result_endpoint [completeTask (claimTask (newTask 1 "8/4/2")) 1] "1").2.2.2 1
      (completeTask (claimTask (newTask 1 "8/4/2")) 1) rfl rfl rfl⟩

/-- Claim C5, refuting interleaving: the two statements
`task.ID = nextTaskID; nextTaskID++` of `addTaskHandler` are not
protected by any lock, so in the interleaving where both concurrent
submissions read the counter before either increments it, BOTH tasks
receive identifier 1 - identifiers are neither unique nor strictly
increasing under concurrency.  A sequential schedule of the very same
steps yields the distinct identifiers 1 and 2. -/
theorem c5_create_race :
    (runSchedule [true, false, true, false] raceInit).idA = 1 ∧
    (runSchedule [true, false, true, false] raceInit).idB = 1 ∧
    (runSchedule [true, false, true, false] raceInit).idA =
      (runSchedule [true, false, true, false] raceInit).idB ∧
    (runSchedule [true, true, false, false] raceInit).idA = 1 ∧
    (runSchedule [true, true, false, false] raceInit).idB = 2 := by
  refine ⟨rfl, rfl, rfl, rfl, rfl⟩

/-- Claim C6: a parenthesized subexpression is evaluated first even as
the operand of the higher-precedence `*`: `"(E)*d"` evaluates to
(value of `E`) times `d` for every well-formed parenthesis-free `E`;
in particular `"(2+3)*4"` evaluates to `20`. -/
theorem c6_paren_override :
    (∀ (c₀ : Char) (ts : List (Char × Char)) (d : Char),
      c₀.isDigit = true → tokensOk ts → d.isDigit = true →
      evaluateExpression (mkParenMulExpr c₀ ts d) =
        GoResult.ok (refEval (parseCharFloat c₀) (semTokens ts) * parseCharFloat d)) ∧
    evaluateExpression "(2+3)*4" = GoResult.ok 20 := by
  refine ⟨eval_parenMul, ?_⟩
  have h : evaluateExpression "(2+3)*4" = GoResult.ok ((2 + 3) * 4) := rfl
  rw [h]
  norm_num

theorem c6_paren_override_witness :
    ('2' : Char).isDigit = true ∧ tokensOk [('+', '3')] ∧ ('4' : Char).isDigit = true ∧
    evaluateExpression (mkParenMulExpr '2' [('+', '3')] '4') =
      GoResult.ok (refEval (parseCharFloat '2') (semTokens [('+', '3')]) * parseCharFloat '4') :=
  ⟨by decide, by decide, by decide,
    c6_paren_override.1 '2' [('+', '3')] '4' (by decide) (by decide) (by decide)⟩

/-- Claim C7: chains of equal-precedence operators associate left to
right - the evaluator computes the left fold of `applyOp` over the
chain; `performOperation` pops `b` from the top of the operand stack,
`a` next, and computes `a op b` in that operand order (`a/b` for
division); in particular `"8/4/2"` evaluates to `(8/4)/2 = 1`, not
`8/(4/2) = 4`. -/
theorem c7_left_assoc :
    (∀ (c₀ : Char) (ts : List (Char × Char)), c₀.isDigit = true → tokensOk ts →
      ((∀ p ∈ ts, p.1 = '+' ∨ p.1 = '-') ∨ (∀ p ∈ ts, p.1 = '*' ∨ p.1 = '/')) →
      evaluateExpression (mkExpr c₀ ts) =
        GoResult.ok ((semTokens ts).foldl (fun x p => applyOp p.1 x p.2)
          (parseCharFloat c₀))) ∧
    (∀ (b a : ℚ) (rest : List ℚ) (op : Char) (ops : List Char),
      performOperation (b :: a :: rest, op :: ops) = (applyOp op a b :: rest, ops)) ∧
    (∀ a b : ℚ, applyOp '/' a b = a / b) ∧
    evaluateExpression "8/4/2" = GoResult.ok 1 ∧
    evaluateExpression "8/4/2" ≠ GoResult.ok 4 := by
  refine ⟨?_, fun b a rest op ops => rfl, fun a b => rfl, ?_, ?_⟩
  · intro c₀ ts h₀ hts huni
    rw [eval_noparen c₀ ts h₀ hts]
    rcases huni with h | h
    · have hsem : ∀ p ∈ semTokens ts, p.1 = '+' ∨ p.1 = '-' := by
        intro p hp
        obtain ⟨q, hq, rfl⟩ := List.mem_map.mp hp
        exact h q hq
      rw [refEval_allAdd _ _ hsem]
    · have hsem : ∀ p ∈ semTokens ts, p.1 = '*' ∨ p.1 = '/' := by
        intro p hp
        obtain ⟨q, hq, rfl⟩ := List.mem_map.mp hp
        exact h q hq
      rw [refEval_allMul _ _ hsem]
  · have h : evaluateExpression "8/4/2" = GoResult.ok (8 / 4 / 2) := rfl
    rw [h]
    norm_num
  · have h : evaluateExpression "8/4/2" = GoResult.ok (8 / 4 / 2) := rfl
    rw [h]
    simp only [ne_eq, GoResult.ok.injEq]
    norm_num

theorem c7_left_assoc_witness :
    ('8' : Char).isDigit = true ∧ tokensOk [('/', '4'), ('/', '2')] ∧
    (∀ p ∈ ([('/', '4'), ('/', '2')] : List (Char × Char)), p.1 = '*' ∨ p.1 = '/') ∧
    evaluateExpression (mkExpr '8' [('/', '4'), ('/', '2')]) =
      GoResult.ok ((semTokens [('/', '4'), ('/', '2')]).foldl
        (fun x p => applyOp p.1 x p.2) (parseCharFloat '8')) :=
  ⟨by decide, by decide, by decide,
    c7_left_assoc.1 '8' [('/', '4'), ('/', '2')] (by decide) (by decide)
      (Or.inr (by decide))⟩

/-- Claim C8: the dispatch channel is created with fixed capacity 100
and an empty buffer; a send blocks exactly when 100 tasks are already
buffered and otherwise appends at the tail; a receive blocks on an
empty buffer and otherwise hands out the oldest task first (strict
FIFO, no reordering); any sequence of at most 100 pending sends is
accepted and preserves submission order. -/
theorem c8_channel_fifo :
    taskChannelInit.cap = 100 ∧
    taskChannelInit.buf = [] ∧
    (∀ (c : GoChan) (t : GoTask), c.buf.length = c.cap → chanSend c t = none) ∧
    (∀ (c : GoChan) (t : GoTask) (c' : GoChan), chanSend c t = some c' →
      c'.buf = c.buf ++ [t]) ∧
    (∀ c : GoChan, c.buf = [] → chanRecv c = none) ∧
    (∀ (c : GoChan) (t : GoTask) (rest : List GoTask), c.buf = t :: rest →
      chanRecv c = some (t, { c with buf := rest })) ∧
    (∀ (l : List GoTask) (c : GoChan), c.buf.length + l.length ≤ c.cap →
      ∃ c', sendList c l = some c' ∧ c'.buf = c.buf ++ l ∧ c'.cap = c.cap) := by
  refine ⟨rfl, rfl, ?_, ?_, ?_, ?_, sendList_ok⟩
  · intro c t h
    rw [chanSend, if_neg (by omega)]
  · intro c t c' h
    by_cases hlt : c.buf.length < c.cap
    · rw [chanSend, if_pos hlt] at h
      injection h with h2
      rw [← h2]
    · rw [chanSend, if_neg hlt] at h
      exact Option.noConfusion h
  · intro c h
    simp [chanRecv, h]
  · intro c t rest h
    simp [chanRecv, h]

theorem c8_channel_fifo_witness :
    (GoChan.mk (List.replicate 100 (newTask 1 "1")) 100).buf.length =
      (GoChan.mk (List.replicate 100 (newTask 1 "1")) 100).cap ∧
    chanSend (GoChan.mk (List.replicate 100 (newTask 1 "1")) 100) (newTask 2 "2") = none ∧
    chanRecv (GoChan.mk [newTask 1 "1", newTask 2 "2"] 100) =
      some (newTask 1 "1", GoChan.mk [newTask 2 "2"] 100) :=
  ⟨by simp, c8_channel_fifo.2.2.1 _ _ (by simp),
    c8_channel_fifo.2.2.2.2.2.1 _ _ _ rfl⟩

/-- Claim C9: after any sequence of task creations from the initial
state, the task with identifier `i` sits at position `i-1` of the task
list (identifiers are 1-based positions), lookup by identifier
succeeds with the task whose `ID` equals `i` exactly when
`1 ≤ i ≤ length`, and fails (404 path) otherwise. -/
theorem c9_id_is_position (es : List String) (i : ℤ) :
    ((1 ≤ i ∧ i ≤ ((applyCreates registryInit es).tasks.length : ℤ)) →
      ∃ t, lookupTask (applyCreates registryInit es).tasks i = some t ∧
        (t.ID : ℤ) = i) ∧
    (¬(1 ≤ i ∧ i ≤ ((applyCreates registryInit es).tasks.length : ℤ)) →
      lookupTask (applyCreates registryInit es).tasks i = none) ∧
    (∀ (k : ℕ) (h : k < (applyCreates registryInit es).tasks.length),
      ((applyCreates registryInit es).tasks[k]).ID = k + 1) := by
  obtain ⟨h1, h2⟩ := idsMatch_applyCreates es registryInit idsMatch_init
  refine ⟨?_, ?_, h2⟩
  · rintro ⟨hi1, hi2⟩
    obtain ⟨hk, hlook⟩ := lookupTask_inRange _ i hi1 hi2
    refine ⟨_, hlook, ?_⟩
    rw [h2 (i - 1).toNat hk]
    push_cast
    omega
  · intro h
    rw [lookupTask, if_pos (by omega)]

theorem c9_id_is_position_witness :
    (1 ≤ (2 : ℤ) ∧ (2 : ℤ) ≤ ((applyCreates registryInit ["1+1", "2*3"]).tasks.length : ℤ)) ∧
    (∃ t, lookupTask (applyCreates registryInit ["1+1", "2*3"]).tasks 2 = some t ∧
      (t.ID : ℤ) = 2) :=
  ⟨by decide, (c9_id_is_position ["1+1", "2*3"] 2).1 (by decide)⟩

/-- Claim C10: every scanned character that is not one of
`+ - * / ( )` (and not a removed space) goes through the `default`
branch, which parses the one-character string as a float with the
error discarded: a digit pushes its numeric value, any other character
(for example a letter) pushes `0` instead of being rejected; so
`"a+2"` evaluates to `0 + 2 = 2`. -/
theorem c10_default_parses_anything :
    (∀ (c : Char) (st : List ℚ) (os : List Char), isSpecial c = false → c ≠ ' ' →
      scanChar c (st, os) = some (parseCharFloat c :: st, os)) ∧
    (∀ c : Char, c.isDigit = true → parseCharFloat c = ((c.toNat - 48 : ℕ) : ℚ)) ∧
    (∀ c : Char, c.isDigit = false → parseCharFloat c = 0) ∧
    evaluateExpression "a+2" = GoResult.ok 2 := by
  refine ⟨?_, ?_, ?_, ?_⟩
  · intro c st os h _
    exact scanChar_other h st os
  · intro c h
    simp [parseCharFloat, h]
  · intro c h
    simp [parseCharFloat, h]
  · have h : evaluateExpression "a+2" = GoResult.ok (0 + 2) := rfl
    rw [h]
    norm_num

theorem c10_default_parses_anything_witness :
    isSpecial 'a' = false ∧ ('a' : Char) ≠ ' ' ∧
    scanChar 'a' ([], []) = some ([parseCharFloat 'a'], []) :=
  ⟨by decide, by decide,
    c10_default_parses_anything.1 'a' [] [] (by decide) (by decide)⟩
